import Mathlib

/-!
# Verification of the mpi4pyd dispatch and buffer-reconciliation layer

Shallow embedding of `mpi4pyd.MPI._helpers`, `mpi4pyd.MPI._hybrid_comm` and
`mpi4pyd.MPI._buffer_comm`: the buffer-eligibility classifier, the rendezvous
protocol (`use_buffer_meth`), the gather shape-reconciliation engine, the
scatter chunking logic, the point-to-point send/recv protocol, the
`get_HybridComm_obj` registry, and attribute forwarding on the facade.

Machine integers of the source are modelled as `Nat`; NumPy arrays are
modelled as a dtype tag, a contiguity flag, a shape and a flat (row-major)
data list; Python exceptions become `Except`; the underlying MPI transport
(assumed correct, out of scope per the specification) is modelled as exact
delivery: `bcast` hands every rank the root's value, `Send`/`Recv` delivers
the sender's flat data, `Scatter` hands rank `r` the `r`-th contiguous chunk,
`Gatherv` concatenates contributions at the prescribed displacements.
-/

namespace Mpi4pyd

/-- NumPy element-type tags relevant to the dispatch layer.  The first four
are the keys of `dtype_dict` in `_hybrid_comm.py`/`_buffer_comm.py`
(`'int'`/`'float'` are the same wire types as `int64`/`float64`); the rest
stand for the dtypes NumPy supports but `dtype_dict` does not know. -/
inductive NpDtype
  | int32
  | int64
  | float32
  | float64
  | bool_
  | object_
  | str_
  deriving DecidableEq, Repr

/-- A NumPy `ndarray`: dtype tag, memory-contiguity flag, shape, and the
flat row-major element buffer. -/
structure Ndarray (α : Type) where
  dtype : NpDtype
  contiguous : Bool
  shape : List Nat
  data : List α
  deriving DecidableEq, Repr

/-- Well-formedness of a NumPy array: the flat buffer holds exactly
`prod shape` elements (true of every real `ndarray`). -/
def Ndarray.wf (a : Ndarray α) : Prop :=
  a.data.length = a.shape.prod

/-- A Python object as seen by the communication methods: either a NumPy
`ndarray` or any other Python object (list, str, int, None, ...). -/
inductive PyObj (α β : Type)
  | ndarray (a : Ndarray α)
  | other (o : β)
  deriving DecidableEq, Repr

/-- `mpi4pyd.MPI._helpers.is_buffer_obj`: the whole body is
`return(isinstance(obj, np.ndarray))`. -/
def is_buffer_obj (p : PyObj α β) : Bool :=
  match p with
  | .ndarray _ => true
  | .other _ => false

/-- The dtype names `dtype_dict` maps to MPI datatypes:
`int`, `int32`, `int64`, `float`, `float32`, `float64`.
In this embedding those are exactly the four 32/64-bit numeric tags. -/
def supported_dtypes : List NpDtype :=
  [.int32, .int64, .float32, .float64]

/-- Modelled from the spec (for refinement comparison with `is_buffer_obj`):
"Returns true iff payload is a contiguous, homogeneously-typed numeric array
of a type present in the supported element-type table (integer 32/64-bit,
floating 32/64-bit)". -/
def spec_buffer_eligible (p : PyObj α β) : Bool :=
  match p with
  | .ndarray a => a.contiguous && supported_dtypes.contains a.dtype
  | .other _ => false

/-- A concrete boolean-dtype contiguous array (`np.zeros(3, dtype=bool)`). -/
def boolArr : Ndarray Nat :=
  { dtype := .bool_, contiguous := true, shape := [3], data := [0, 0, 0] }

/-- A concrete non-contiguous `float64` array (e.g. a strided view). -/
def stridedArr : Ndarray Nat :=
  { dtype := .float64, contiguous := false, shape := [2], data := [1, 2] }

/-- C1 counterexample: `is_buffer_obj` accepts a boolean-dtype array and a
non-contiguous array, although the claim says such payloads are never
buffer-eligible.  The code checks only `isinstance(obj, np.ndarray)`. -/
theorem C1_counterexample :
    is_buffer_obj (α := Nat) (β := Unit) (.ndarray boolArr) = true ∧
    spec_buffer_eligible (α := Nat) (β := Unit) (.ndarray boolArr) = false ∧
    is_buffer_obj (α := Nat) (β := Unit) (.ndarray stridedArr) = true ∧
    spec_buffer_eligible (α := Nat) (β := Unit) (.ndarray stridedArr) = false := by
  decide

/-- C1 (amended): the buffer eligibility classifier returns true iff the
payload is a NumPy `ndarray`, regardless of element dtype or memory
contiguity; every non-`ndarray` payload returns false. -/
theorem C1_is_buffer_obj_iff_ndarray (p : PyObj α β) :
    is_buffer_obj p = true ↔ ∃ a, p = PyObj.ndarray a := by
  cases p with
  | ndarray a => simp [is_buffer_obj]
  | other o => simp [is_buffer_obj]

/-! ## Rendezvous protocol (`use_buffer_meth`, `_hybrid_comm.py` lines 453-496)

The source dispatches on the name of the calling frame; per the specification
this is embedded with the operation kind made explicit.  The underlying MPI
collectives are modelled exactly: `comm.bcast(x_r, root)` hands every rank
the root's contribution, `comm.allreduce(x_r, op=MPI.MIN)` hands every rank
the minimum over all contributions. -/

/-- The BCAST/SCATTER branch of `use_buffer_meth`:
`return(comm.bcast(is_buffer_obj(obj), root=src_dest))`.
`payloads` lists each rank's local `obj` argument (index = rank); the result
lists the decision each rank obtains. -/
def use_buffer_meth_bcast (payloads : List (PyObj α β)) (root : Nat) : List Bool :=
  payloads.map (fun _ => ((payloads.get? root).map is_buffer_obj).getD false)

/-- The GATHER branch of `use_buffer_meth`:
`return(comm.allreduce(is_buffer_obj(obj), op=MPI.MIN))`.
Every rank obtains the minimum of all ranks' booleans (`false < true`). -/
def use_buffer_meth_gather (payloads : List (PyObj α β)) : Bool :=
  (payloads.map is_buffer_obj).foldr min true

/-- 0/1 encoding of a boolean, as used by `MPI.MIN` over Python bools. -/
def boolWire (b : Bool) : Nat :=
  if b then 1 else 0

theorem foldr_min_bool_eq_all (l : List Bool) :
    l.foldr min true = l.all id := by
  induction l with
  | nil => rfl
  | cons b bs ih =>
      simp only [List.foldr, List.all_cons, ih, id]
      cases b <;> cases hx : bs.all id <;> decide

theorem all_map_id (l : List γ) (f : γ → Bool) :
    (l.map f).all id = l.all f := by
  induction l with
  | nil => rfl
  | cons x xs ih => simp [List.all_cons, ih]

theorem wire_foldr_min (l : List Bool) :
    (l.map boolWire).foldr min 1 = boolWire (l.foldr min true) := by
  induction l with
  | nil => rfl
  | cons b bs ih =>
      simp only [List.map_cons, List.foldr, ih]
      cases b <;> cases hx : bs.foldr min true <;> decide

/-- C2: one shared decision per collective call.  For broadcast/scatter every
rank's decision equals the root's local classification of its own payload;
for gather the decision is the minimum (logical AND) of the 0/1-encoded local
classifications, so one non-eligible payload forces the generic path. -/
theorem C2_rendezvous_decision (payloads : List (PyObj α β)) (root : Nat)
    (hroot : root < payloads.length) :
    use_buffer_meth_bcast payloads root =
      List.replicate payloads.length (is_buffer_obj (payloads.get ⟨root, hroot⟩)) ∧
    boolWire (use_buffer_meth_gather payloads) =
      (payloads.map (fun p => boolWire (is_buffer_obj p))).foldr min 1 ∧
    use_buffer_meth_gather payloads = payloads.all (fun p => is_buffer_obj p) ∧
    (∀ p ∈ payloads, is_buffer_obj p = false → use_buffer_meth_gather payloads = false) := by
  refine ⟨?_, ?_, ?_, ?_⟩
  · unfold use_buffer_meth_bcast
    rw [List.get?_eq_get hroot]
    simp [List.map_const']
  · unfold use_buffer_meth_gather
    rw [← wire_foldr_min, List.map_map]
    rfl
  · unfold use_buffer_meth_gather
    rw [foldr_min_bool_eq_all, all_map_id]
  · intro p hp hb
    unfold use_buffer_meth_gather
    rw [foldr_min_bool_eq_all]
    cases hall : (payloads.map is_buffer_obj).all id with
    | false => rfl
    | true =>
        exfalso
        rw [List.all_eq_true] at hall
        have hmem : false ∈ payloads.map is_buffer_obj := by
          rw [← hb]
          exact List.mem_map_of_mem is_buffer_obj hp
        have hfalse := hall false hmem
        simp at hfalse

/-- C2 witness: two ranks, rank 0 holding an `int64` array, rank 1 a generic
object; with root 0 the broadcast decision is `true` on both ranks, and the
gather decision is `false` because rank 1 is not buffer-eligible. -/
theorem C2_rendezvous_decision_witness :
    use_buffer_meth_bcast (α := Nat) (β := Unit)
        [.ndarray ⟨.int64, true, [2], [5, 7]⟩, .other ()] 0 = [true, true] ∧
    use_buffer_meth_gather (α := Nat) (β := Unit)
        [.ndarray ⟨.int64, true, [2], [5, 7]⟩, .other ()] = false := by
  have h := C2_rendezvous_decision (α := Nat) (β := Unit)
    [.ndarray ⟨.int64, true, [2], [5, 7]⟩, .other ()] 0 (by decide)
  refine ⟨?_, ?_⟩
  · rw [h.1]; rfl
  · exact h.2.2.2 (.other ()) (by simp) rfl

/-! ## Registry and wrap function (`get_HybridComm_obj`, `_hybrid_comm.py` lines 41-107, 498-511)

Python object identity (`hex(id(comm))`) is modelled by a `Nat` object id;
the process-wide `hybrid_comm_registry` dict is a key/value list threaded
through the function; constructing a new `HybridComm` consumes a caller-
supplied fresh object id. -/

/-- A `HybridComm` facade instance: its own object id, the id of the wrapped
communicator, and the wrapped communicator's size (forwarded attribute). -/
structure Facade where
  objId : Nat
  commId : Nat
  size : Nat
  deriving DecidableEq, Repr

/-- The `comm` argument of `get_HybridComm_obj`. -/
inductive CommInput
  | noneArg                                -- comm=None
  | intracomm (objId : Nat) (size : Nat)   -- a plain MPI.Intracomm / dummyMPI.Intracomm
  | hybridFacade (f : Facade)              -- an already-wrapped HybridComm instance
  | dummyWorld                             -- dummyMPI.COMM_WORLD (single process, size 1)
  | nonComm                                -- any object that is not an intra-communicator
  deriving DecidableEq, Repr

/-- What `get_HybridComm_obj` returns. -/
inductive WrapResult
  | dummyCommWorld                         -- mpi4pyd.dummyMPI.COMM_WORLD
  | facade (f : Facade)
  deriving DecidableEq, Repr

inductive TypeErr
  | typeError
  deriving DecidableEq, Repr

/-- `hex(id(comm))` of the resolved `comm` argument (`world` is
`MPI.COMM_WORLD`'s id and size, used when `comm is None`). -/
def commIdOf (world : Nat × Nat) (input : CommInput) : Nat :=
  match input with
  | .noneArg => world.1
  | .intracomm i _ => i
  | .hybridFacade f => f.objId
  | .dummyWorld => 0
  | .nonComm => 0

/-- `comm.Get_size()` of the resolved `comm` argument; on a facade the
attribute is forwarded to the wrapped communicator. -/
def commSizeOf (world : Nat × Nat) (input : CommInput) : Nat :=
  match input with
  | .noneArg => world.2
  | .intracomm _ s => s
  | .hybridFacade f => f.size
  | .dummyWorld => 1
  | .nonComm => 0

/-- `hex(id(comm)) in hybrid_comm_registry.keys()` followed by
`hybrid_comm_registry[hex(id(comm))]`: dictionary lookup by key. -/
def lookupReg (a : Nat) : List (Nat × Facade) → Option Facade
  | [] => none
  | (k, v) :: rest => if a = k then some v else lookupReg a rest

/-- `comm in hybrid_comm_registry.values()`: Python compares with object
identity here, so only a `HybridComm` instance that is one of the stored
facades can match. -/
def valuesFind (reg : List (Nat × Facade)) (input : CommInput) : Option Facade :=
  match input with
  | .hybridFacade f => if (reg.map Prod.snd).contains f then some f else none
  | _ => none

/-- `get_HybridComm_obj(comm)` (`_hybrid_comm.py` lines 41-107 and 498-506):
resolve `None` to `COMM_WORLD`; reject non-communicators with `TypeError`;
return `dummyMPI.COMM_WORLD` for size-1 communicators; return the registered
facade if the communicator id is a registry key; return the input unchanged if
it is itself a registered facade; otherwise construct a fresh `HybridComm`,
register it under the communicator's id, and return it. -/
def get_HybridComm_obj (world : Nat × Nat) (input : CommInput)
    (reg : List (Nat × Facade)) (freshId : Nat) :
    Except TypeErr (WrapResult × List (Nat × Facade)) :=
  match input with
  | .nonComm => .error .typeError
  | _ =>
    let cid := commIdOf world input
    let sz := commSizeOf world input
    if sz = 1 then .ok (.dummyCommWorld, reg)
    else
      match lookupReg cid reg with
      | some f => .ok (.facade f, reg)
      | none =>
        match valuesFind reg input with
        | some f => .ok (.facade f, reg)
        | none =>
          let f : Facade := { objId := freshId, commId := cid, size := sz }
          .ok (.facade f, reg ++ [(cid, f)])

/-- `MPI.COMM_SELF`: the per-process self communicator; its size is 1 by
definition of MPI.  Object id chosen arbitrarily. -/
def MPI_COMM_SELF : CommInput := .intracomm 1 1

/-- `HYBRID_COMM_SELF = get_HybridComm_obj(MPI.COMM_SELF)` evaluated at module
load, when the registry is still empty (`_hybrid_comm.py` line 510). -/
def HYBRID_COMM_SELF : Except TypeErr (WrapResult × List (Nat × Facade)) :=
  get_HybridComm_obj (0, 4) MPI_COMM_SELF [] 100

theorem lookupReg_append_of_none (l₁ l₂ : List (Nat × Facade)) (a : Nat)
    (h : lookupReg a l₁ = none) :
    lookupReg a (l₁ ++ l₂) = lookupReg a l₂ := by
  induction l₁ with
  | nil => rfl
  | cons kv rest ih =>
      cases kv with
      | mk k v =>
          rw [List.cons_append, lookupReg] at *
          by_cases hk : a = k
          · simp [hk] at h
          · simp only [if_neg hk] at h ⊢
            exact ih h

/-- C8: wrapping is idempotent and type-checked.  (a) Two consecutive calls
with the same underlying communicator (size ≠ 1) return the same result and
leave the registry of the first call unchanged; (b) passing a registered
facade back in (its own object id is not a registry key, since keys are ids
of the wrapped communicators) returns that same facade with the registry
unchanged; (c) a non-communicator input raises `TypeError`. -/
theorem C8_wrap_idempotent_typechecked (world : Nat × Nat)
    (i s fresh fresh2 : Nat) (reg reg1 : List (Nat × Facade))
    (r1 : WrapResult) (f : Facade)
    (hs : s ≠ 1)
    (hcall : get_HybridComm_obj world (.intracomm i s) reg fresh = .ok (r1, reg1))
    (hfs : f.size ≠ 1)
    (hfkey : lookupReg f.objId reg = none)
    (hfval : (reg.map Prod.snd).contains f = true) :
    get_HybridComm_obj world (.intracomm i s) reg1 fresh2 = .ok (r1, reg1) ∧
    get_HybridComm_obj world (.hybridFacade f) reg fresh = .ok (.facade f, reg) ∧
    get_HybridComm_obj world .nonComm reg fresh = .error .typeError := by
  refine ⟨?_, ?_, rfl⟩
  · unfold get_HybridComm_obj at hcall ⊢
    simp only [commIdOf, commSizeOf, valuesFind, if_neg hs] at hcall ⊢
    cases hl : lookupReg i reg with
    | some f0 =>
        rw [hl] at hcall
        injection hcall with hpair
        injection hpair with hr hreg
        subst hr hreg
        rw [hl]
    | none =>
        rw [hl] at hcall
        injection hcall with hpair
        injection hpair with hr hreg
        subst hr hreg
        rw [lookupReg_append_of_none reg _ i hl]
        simp [lookupReg]
  · unfold get_HybridComm_obj
    simp only [commIdOf, commSizeOf, valuesFind]
    rw [if_neg hfs, hfkey, hfval]
    simp

/-- C8 witness: with an empty registry, wrapping the intra-communicator with
object id 5 and size 2 creates a facade; re-wrapping returns the identical
facade and registry; feeding the created facade back in returns it unchanged;
wrapping the integer 0 (not a communicator) raises `TypeError`. -/
theorem C8_wrap_idempotent_typechecked_witness :
    get_HybridComm_obj (0, 4) (.intracomm 5 2) [(5, ⟨100, 5, 2⟩)] 101 =
      .ok (.facade ⟨100, 5, 2⟩, [(5, ⟨100, 5, 2⟩)]) ∧
    get_HybridComm_obj (0, 4) (.hybridFacade ⟨100, 5, 2⟩) [(5, ⟨100, 5, 2⟩)] 101 =
      .ok (.facade ⟨100, 5, 2⟩, [(5, ⟨100, 5, 2⟩)]) ∧
    get_HybridComm_obj (0, 4) .nonComm [(5, ⟨100, 5, 2⟩)] 101 = .error .typeError := by
  exact C8_wrap_idempotent_typechecked (0, 4) 5 2 101 101 [(5, ⟨100, 5, 2⟩)]
    [(5, ⟨100, 5, 2⟩)] (.facade ⟨100, 5, 2⟩) ⟨100, 5, 2⟩ (by decide) (by rfl)
    (by decide) (by decide) (by decide)

/-- C10: any intra-communicator of size 1 (in particular `MPI.COMM_SELF`) and
`dummyMPI.COMM_WORLD` itself make `get_HybridComm_obj` return
`dummyMPI.COMM_WORLD` with the registry unchanged — the size test precedes
the registry lookup for every registry state, so no entry is ever created —
and the exported `HYBRID_COMM_SELF` constant is the dummy fallback object,
not a `HybridComm` facade. -/
theorem C10_size_one_returns_dummy (world : Nat × Nat) (i fresh : Nat)
    (reg : List (Nat × Facade)) :
    get_HybridComm_obj world (.intracomm i 1) reg fresh = .ok (.dummyCommWorld, reg) ∧
    get_HybridComm_obj world .dummyWorld reg fresh = .ok (.dummyCommWorld, reg) ∧
    HYBRID_COMM_SELF = .ok (.dummyCommWorld, []) := by
  exact ⟨rfl, rfl, rfl⟩

/-! ## Attribute forwarding (`HybridComm.__getattribute__`/`__setattr__`/`__delattr__`,
`_hybrid_comm.py` lines 128-146)

A Python object's attribute namespace is modelled as a name/value list; the
facade holds its own namespace (`super()` access) next to the wrapped
communicator's namespace.  `comm.__dir__()` membership is modelled as key
membership in the communicator's namespace. -/

/-- The `overridden_attrs` tuple of `_hybrid_comm.py` line 110. -/
def overridden_attrs : List String :=
  ["__init__", "bcast", "gather", "recv", "scatter", "send"]

/-- Attribute lookup on a plain namespace (`getattr(obj, name)`). -/
def nsGet (ns : List (String × V)) (name : String) : Option V :=
  match ns with
  | [] => none
  | (k, v) :: rest => if name = k then some v else nsGet rest name

/-- `setattr(obj, name, value)` on a plain namespace. -/
def nsSet (ns : List (String × V)) (name : String) (v : V) : List (String × V) :=
  match ns with
  | [] => [(name, v)]
  | (k, w) :: rest => if name = k then (k, v) :: rest else (k, w) :: nsSet rest name v

/-- `delattr(obj, name)` on a plain namespace. -/
def nsDel (ns : List (String × V)) (name : String) : List (String × V) :=
  match ns with
  | [] => []
  | (k, w) :: rest => if name = k then rest else (k, w) :: nsDel rest name

/-- `name in comm.__dir__()`. -/
def nsHas (ns : List (String × V)) (name : String) : Bool :=
  (nsGet ns name).isSome

/-- `HybridComm.__getattribute__`: forward to `comm` when the name is not
overridden and appears in `comm.__dir__()`; otherwise use the facade's own
attribute access. -/
def facadeGetattr (commNs selfNs : List (String × V)) (name : String) : Option V :=
  if ¬ overridden_attrs.contains name ∧ nsHas commNs name then
    nsGet commNs name
  else
    nsGet selfNs name

/-- `HybridComm.__setattr__`: returns the communicator's and the facade's
namespaces after the write. -/
def facadeSetattr (commNs selfNs : List (String × V)) (name : String) (v : V) :
    List (String × V) × List (String × V) :=
  if ¬ overridden_attrs.contains name ∧ nsHas commNs name then
    (nsSet commNs name v, selfNs)
  else
    (commNs, nsSet selfNs name v)

/-- `HybridComm.__delattr__`: returns both namespaces after the deletion. -/
def facadeDelattr (commNs selfNs : List (String × V)) (name : String) :
    List (String × V) × List (String × V) :=
  if ¬ overridden_attrs.contains name ∧ nsHas commNs name then
    (nsDel commNs name, selfNs)
  else
    (commNs, nsDel selfNs name)

/-- C9 counterexample: for the attribute name `"pytest_attr"`, which is
outside the intercepted set but not present on the underlying communicator,
writing through the facade does not touch the communicator's namespace,
whereas the same write performed on the communicator directly adds the
attribute there — the side effects observably differ (this is exactly the
behaviour the repository's own test `test_set_attrs` asserts). -/
theorem C9_counterexample :
    (facadeSetattr (V := Nat) [("rank", 0)] [] "pytest_attr" 7).1 = [("rank", 0)] ∧
    nsSet (V := Nat) [("rank", 0)] "pytest_attr" 7 = [("rank", 0), ("pytest_attr", 7)] ∧
    (facadeSetattr (V := Nat) [("rank", 0)] [] "pytest_attr" 7).1 ≠
      nsSet (V := Nat) [("rank", 0)] "pytest_attr" 7 := by
  refine ⟨rfl, rfl, ?_⟩
  decide

/-- C9 (amended): for every attribute name outside the intercepted set that
is present on the underlying communicator (`name in comm.__dir__()`), reads,
writes and deletions on the facade behave exactly as the same operation on
the underlying communicator: the same value is returned and the communicator
namespace is transformed identically, with the facade's own namespace left
untouched.  Names absent from the communicator are handled by the facade's
own namespace instead. -/
theorem C9_forwarding_on_comm_attrs (commNs selfNs : List (String × V))
    (name : String) (v : V)
    (hover : overridden_attrs.contains name = false)
    (hmem : nsHas commNs name = true) :
    facadeGetattr commNs selfNs name = nsGet commNs name ∧
    facadeSetattr commNs selfNs name v = (nsSet commNs name v, selfNs) ∧
    facadeDelattr commNs selfNs name = (nsDel commNs name, selfNs) := by
  have hcond : ¬ overridden_attrs.contains name ∧ nsHas commNs name := by
    constructor
    · simpa using hover
    · exact hmem
  refine ⟨?_, ?_, ?_⟩
  · unfold facadeGetattr
    rw [if_pos hcond]
  · unfold facadeSetattr
    rw [if_pos hcond]
  · unfold facadeDelattr
    rw [if_pos hcond]

/-- C9 witness: the attribute `"name"` lives on the communicator and is not
intercepted; facade reads return the communicator's value and facade writes
and deletions transform the communicator's namespace exactly like direct
ones, leaving the facade's namespace alone. -/
theorem C9_forwarding_on_comm_attrs_witness :
    facadeGetattr (V := Nat) [("name", 3)] [("own", 9)] "name" = some 3 ∧
    facadeSetattr (V := Nat) [("name", 3)] [("own", 9)] "name" 5 =
      ([("name", 5)], [("own", 9)]) ∧
    facadeDelattr (V := Nat) [("name", 3)] [("own", 9)] "name" =
      ([], [("own", 9)]) := by
  have h := C9_forwarding_on_comm_attrs (V := Nat) [("name", 3)] [("own", 9)]
    "name" 5 (by decide) (by decide)
  exact ⟨h.1, h.2.1, h.2.2⟩

/-! ## Point-to-point send/recv (`HybridComm.send` lines 412-449,
`HybridComm.recv` lines 289-336, with the SEND/RECV branch of
`use_buffer_meth` lines 469-484)

The channel between one sender/receiver pair is modelled as the ordered list
of messages the sender emits; the receiver consumes it from the front.  Each
message carries the tag it was sent with. -/

/-- A message on the wire between a fixed rank pair. -/
inductive WireMsg (α β : Type)
  | flagMsg (tag : Nat) (b : Bool)                          -- comm.send(buff_flag, dest, tag)
  | metaMsg (tag : Nat) (shape : List Nat) (dtype : NpDtype) -- comm.send([obj.shape, obj.dtype], ...)
  | bufMsg (tag : Nat) (data : List α)                      -- comm.Send(obj, dest, tag)
  | objMsg (tag : Nat) (p : PyObj α β)                      -- comm.send(obj, dest, tag)
  deriving DecidableEq, Repr

/-- The tag a message was sent under. -/
def WireMsg.tagOf : WireMsg α β → Nat
  | .flagMsg t _ => t
  | .metaMsg t _ _ => t
  | .bufMsg t _ => t
  | .objMsg t _ => t

/-- `HybridComm.send(obj, dest, tag)`: `use_buffer_meth` first sends the
eligibility boolean under `tag`; if eligible the shape/dtype metadata and the
raw buffer follow under the same tag, otherwise the generic message does. -/
def hybridSend (p : PyObj α β) (tag : Nat) : List (WireMsg α β) :=
  match p with
  | .ndarray a => [.flagMsg tag true, .metaMsg tag a.shape a.dtype, .bufMsg tag a.data]
  | .other o => [.flagMsg tag false, .objMsg tag (.other o)]

/-- `HybridComm.recv(source, tag)`: `use_buffer_meth` first receives the
boolean (blocking); if true, the receiver reads the metadata, allocates
`np.empty(shape, dtype)` (a fresh contiguous array) and fills it from the raw
buffer; if false it receives the generic message.  Tags must match the
requested one; a protocol violation yields no value. -/
def hybridRecv (msgs : List (WireMsg α β)) (tag : Nat) : Option (PyObj α β) :=
  match msgs with
  | .flagMsg t true :: .metaMsg t2 shape dtype :: .bufMsg t3 data :: _ =>
      if t = tag ∧ t2 = tag ∧ t3 = tag then
        some (.ndarray { dtype := dtype, contiguous := true, shape := shape, data := data })
      else none
  | .flagMsg t false :: .objMsg t2 p :: _ =>
      if t = tag ∧ t2 = tag then some p else none
  | _ => none

/-- C7: round-trip of point-to-point transfer.  For a payload inside the
transport's typed-buffer domain when it is an array (contiguous — mpi4py's
`Send` requires a contiguous buffer; `np.empty` reconstructs one), the
receiver returns exactly the sent payload; the eligibility boolean is the
first message on the wire, carrying the sender's local classification, and
every message of the call uses the requested tag. -/
theorem C7_send_recv_roundtrip (p : PyObj α β) (tag : Nat)
    (hcontig : ∀ a : Ndarray α, p = .ndarray a → a.contiguous = true) :
    hybridRecv (hybridSend p tag) tag = some p ∧
    (hybridSend p tag).head? = some (.flagMsg tag (is_buffer_obj p)) ∧
    (∀ m ∈ hybridSend p tag, m.tagOf = tag) := by
  cases p with
  | ndarray a =>
      have hc := hcontig a rfl
      refine ⟨?_, rfl, ?_⟩
      · cases a with
        | mk dtype contiguous shape data =>
            simp at hc
            subst hc
            simp [hybridSend, hybridRecv]
      · intro m hm
        simp only [hybridSend, List.mem_cons, List.not_mem_nil, or_false] at hm
        rcases hm with h | h | h <;> subst h <;> rfl
  | other o =>
      refine ⟨?_, rfl, ?_⟩
      · simp [hybridSend, hybridRecv]
      · intro m hm
        simp only [hybridSend, List.mem_cons, List.not_mem_nil, or_false] at hm
        rcases hm with h | h <;> subst h <;> rfl

/-- C7 witness: a contiguous `int64` array round-trips under tag 3, and a
generic (non-array) payload round-trips as well. -/
theorem C7_send_recv_roundtrip_witness :
    hybridRecv (hybridSend (α := Nat) (β := Unit)
        (.ndarray ⟨.int64, true, [2], [5, 7]⟩) 3) 3 =
      some (.ndarray ⟨.int64, true, [2], [5, 7]⟩) ∧
    hybridRecv (hybridSend (α := Nat) (β := Unit) (.other ()) 3) 3 =
      some (.other ()) := by
  have h1 := C7_send_recv_roundtrip (α := Nat) (β := Unit)
    (.ndarray ⟨.int64, true, [2], [5, 7]⟩) 3
    (by intro a ha; injection ha with h; rw [← h])
  have h2 := C7_send_recv_roundtrip (α := Nat) (β := Unit) (.other ()) 3
    (by intro a ha; simp at ha)
  exact ⟨h1.1, h2.1⟩

/-! ## Scatter (`HybridComm.scatter`, `_hybrid_comm.py` lines 339-409; the
buffer path of `BufferComm.scatter`, `_buffer_comm.py` lines 339-368, is
verbatim identical)

The whole group's buffer-path behaviour is modelled per rank.  The rendezvous
decision `use_buffer_meth` has already yielded `true` on every rank (the root
holds an ndarray, claim C2).  Root checks `len(sendobj) % size` *before* the
metadata broadcast: on failure it raises and never broadcasts, so the other
ranks stay blocked inside `comm.bcast(None, root=root)`.  `comm.Scatter`
hands rank `r` the `r`-th contiguous chunk of the flat send buffer. -/

inductive ScatterErr
  | shapeError      -- e13tools.ShapeError: uneven distribution
  deriving DecidableEq, Repr

/-- Outcome of one rank's `scatter` call. -/
inductive ScatterOut (α : Type)
  | val (a : Ndarray α)   -- the call returned this array
  | err (e : ScatterErr)  -- the call raised
  | blocked               -- the rank waits forever on a message never sent
  deriving DecidableEq, Repr

/-- `np.squeeze`: remove every axis of size 1. -/
def squeeze (a : Ndarray α) : Ndarray α :=
  { a with shape := a.shape.filter (fun s => s != 1) }

/-- The buffer path of `HybridComm.scatter` as observed by rank `rank` in a
group of `n` ranks, with `sendobj` the root's payload. -/
def hybridScatterRank (sendobj : Ndarray α) (n : Nat) (root rank : Nat) :
    ScatterOut α :=
  if sendobj.shape.headD 0 % n ≠ 0 then
    -- root: `raise e13.ShapeError(...)` before `comm.bcast`;
    -- everyone else: waiting inside `comm.bcast(None, root=root)`
    if rank = root then .err .shapeError else .blocked
  else
    -- `buff_shape = list(sendobj.shape); buff_shape[0] //= self._size`
    let buff_shape := sendobj.shape.set 0 (sendobj.shape.headD 0 / n)
    let chunk := buff_shape.prod
    -- `np.empty(buff_shape, dtype)` filled by `comm.Scatter`: the rank-th
    -- contiguous chunk of the root's flat buffer
    let recvobj : Ndarray α :=
      { dtype := sendobj.dtype, contiguous := true, shape := buff_shape,
        data := (sendobj.data.drop (rank * chunk)).take chunk }
    -- `recvobj = recvobj.squeeze()`
    .val (squeeze recvobj)

/-- A 1-D `int64` array of three elements: its length 3 is not divisible by
a group size of 2. -/
def unevenArr : Ndarray Nat :=
  { dtype := .int64, contiguous := true, shape := [3], data := [1, 2, 3] }

/-- C5 counterexample: scattering a length-3 array over 2 ranks makes rank 1
block forever inside the metadata broadcast; it does not fail with the
uneven-distribution error, so the failure is not group-wide. -/
theorem C5_counterexample :
    hybridScatterRank unevenArr 2 0 1 = ScatterOut.blocked ∧
    hybridScatterRank unevenArr 2 0 1 ≠ ScatterOut.err .shapeError := by
  decide

/-- C5 (amended): when the leading dimension is not divisible by the group
size, only the root rank raises the uneven-distribution error, and it does so
before broadcasting any metadata or data; every other rank blocks
indefinitely waiting for the broadcast that never happens (the asymmetric
deadlock risk the specification flags as an open question). -/
theorem C5_uneven_scatter_root_raises_nonroot_blocks (a : Ndarray α)
    (n root rank : Nat) (h : a.shape.headD 0 % n ≠ 0) :
    hybridScatterRank a n root root = .err .shapeError ∧
    (rank ≠ root → hybridScatterRank a n root rank = .blocked) := by
  constructor
  · unfold hybridScatterRank
    rw [if_pos h, if_pos rfl]
  · intro hrank
    unfold hybridScatterRank
    rw [if_pos h, if_neg hrank]

/-- C5 witness: the length-3 array over 2 ranks with root 0 — the root
raises, rank 1 blocks. -/
theorem C5_uneven_scatter_witness :
    hybridScatterRank unevenArr 2 0 0 = ScatterOut.err .shapeError ∧
    hybridScatterRank unevenArr 2 0 1 = ScatterOut.blocked := by
  have h := C5_uneven_scatter_root_raises_nonroot_blocks unevenArr 2 0 1 (by decide)
  exact ⟨h.1, h.2 (by decide)⟩

/-- A `(4, 1)` array scattered over 2 ranks: the per-rank slice shape is
`(2, 1)`, whose trailing singleton axis `squeeze` removes. -/
def colArr : Ndarray Nat :=
  { dtype := .int64, contiguous := true, shape := [4, 1], data := [10, 11, 12, 13] }

/-- C6 counterexample: scattering the `(4, 1)` array over 2 ranks returns an
array of shape `[2]` on rank 0 — `squeeze` removed the trailing singleton
axis, not only a leading one, so the non-leading dimensions of the slice
shape are not preserved as the claim states. -/
theorem C6_counterexample :
    hybridScatterRank colArr 2 0 0 =
      ScatterOut.val { dtype := .int64, contiguous := true, shape := [2], data := [10, 11] } ∧
    hybridScatterRank colArr 2 0 0 ≠
      ScatterOut.val { dtype := .int64, contiguous := true, shape := [2, 1], data := [10, 11] } := by
  decide

theorem chunks_join (k : Nat) :
    ∀ (n : Nat) (xs : List γ), xs.length = n * k →
      ((List.range n).map (fun r => (xs.drop (r * k)).take k)).flatten = xs := by
  intro n
  induction n with
  | zero =>
      intro xs hlen
      rw [Nat.zero_mul] at hlen
      rw [List.eq_nil_of_length_eq_zero hlen]
      rfl
  | succ m ih =>
      intro xs hlen
      rw [List.range_succ_eq_map, List.map_cons, List.map_map, List.flatten_cons]
      have hzero : (xs.drop (0 * k)).take k = xs.take k := by
        rw [Nat.zero_mul, List.drop_zero]
      rw [hzero]
      have hcomp : ((fun r => (xs.drop (r * k)).take k) ∘ Nat.succ) =
          (fun r => ((xs.drop k).drop (r * k)).take k) := by
        funext r
        simp only [Function.comp]
        rw [List.drop_drop, Nat.succ_mul, Nat.add_comm (r * k) k]
      rw [hcomp, ih (xs.drop k) (by rw [List.length_drop, hlen, Nat.succ_mul]; omega)]
      exact List.take_append_drop k xs

/-- C6 (amended): scattering an array with leading dimension `2*n` over `n`
ranks hands rank `r` the `r`-th contiguous length-2 slice — the pre-squeeze
slices concatenated in rank order reconstruct the original flat data — and
before returning each rank applies `np.squeeze`, which removes *every*
singleton axis of the slice shape, not only a leading one. -/
theorem C6_even_scatter (a : Ndarray α) (n root : Nat) (rest : List Nat)
    (hn : 0 < n) (hshape : a.shape = 2 * n :: rest) (hwf : a.wf) :
    (∀ r, hybridScatterRank a n root r =
      .val (squeeze { dtype := a.dtype, contiguous := true, shape := (2 :: rest),
                      data := (a.data.drop (r * (2 :: rest).prod)).take (2 :: rest).prod })) ∧
    ((List.range n).map
        (fun r => (a.data.drop (r * (2 :: rest).prod)).take (2 :: rest).prod)).flatten =
      a.data := by
  have hdiv : a.shape.headD 0 % n = 0 := by
    rw [hshape]
    exact Nat.mul_mod_left 2 n
  have hset : a.shape.set 0 (a.shape.headD 0 / n) = 2 :: rest := by
    rw [hshape]
    simp [Nat.mul_div_cancel 2 hn]
  constructor
  · intro r
    unfold hybridScatterRank
    rw [if_neg (by rw [hdiv]; exact fun hne => hne rfl), hset]
  · exact chunks_join (2 :: rest).prod n a.data
      (by rw [hwf, hshape]; simp [List.prod_cons]; ring)

/-- A `(4, 3)` array of the numbers 0..11 scattered over 2 ranks. -/
def evenArr : Ndarray Nat :=
  { dtype := .int64, contiguous := true, shape := [4, 3],
    data := [0, 1, 2, 3, 4, 5, 6, 7, 8, 9, 10, 11] }

/-- C6 witness: over 2 ranks, rank 0 receives rows 0-1 and rank 1 rows 2-3 of
the `(4, 3)` array, each of shape `(2, 3)`; their concatenation is the
original data. -/
theorem C6_even_scatter_witness :
    hybridScatterRank evenArr 2 0 0 =
      ScatterOut.val { dtype := .int64, contiguous := true, shape := [2, 3],
                       data := [0, 1, 2, 3, 4, 5] } ∧
    hybridScatterRank evenArr 2 0 1 =
      ScatterOut.val { dtype := .int64, contiguous := true, shape := [2, 3],
                       data := [6, 7, 8, 9, 10, 11] } := by
  have h := C6_even_scatter evenArr 2 0 [3] (by decide) rfl (by rfl)
  exact ⟨(h.1 0).trans (by decide), (h.1 1).trans (by decide)⟩

/-! ## Gather (`HybridComm.gather`, `_hybrid_comm.py` lines 216-286;
`BufferComm.gather`, `_buffer_comm.py` lines 202-302)

Both buffer paths run after the rendezvous decision `use_buffer_meth` yielded
`true` on every rank — which, by C2, requires every rank's payload to be an
ndarray — so the models take the per-rank array list (`index = rank`).

`HybridComm.gather` gathers all shapes, then the root receives each rank's
array individually (`comm.Recv` into `np.empty(shape, dtype=sendobj.dtype)`,
or an in-place copy for its own rank); it performs no shape validation.
`BufferComm.gather` is the shape-reconciliation engine: counts,
displacements, the at-most-one-differing-axis check, one `Gatherv` into a
flat buffer, then split and reshape. -/

/-- The `for rank, arr in enumerate(arr_list)` loop of `HybridComm.gather` at
the root: element `rank` is `np.empty(shapes[rank], dtype=sendobj.dtype)`
(root's dtype, freshly allocated hence contiguous) filled either by the
in-place copy `arr[:] = sendobj` (root's own rank) or by
`comm.Recv(arr, source=rank, tag=key+rank)`, which the transport fills with
rank `rank`'s `comm.Send(sendobj, dest=root, tag=key+rank)` flat data. -/
def gatherLoop (rootDtype : NpDtype) (root rank : Nat) :
    List (Ndarray α) → List (Ndarray α)
  | [] => []
  | a :: rest =>
      (if rank = root then
        { dtype := rootDtype, contiguous := true, shape := a.shape, data := a.data }
       else
        { dtype := rootDtype, contiguous := true, shape := a.shape, data := a.data })
      :: gatherLoop rootDtype root (rank + 1) rest

/-- The root side of `HybridComm.gather`'s buffer path. -/
def hybridGatherRoot (arrs : List (Ndarray α)) (root : Nat) : List (Ndarray α) :=
  let rootDtype := ((arrs.get? root).map Ndarray.dtype).getD .float64
  gatherLoop rootDtype root 0 arrs

/-- `HybridComm.gather` as observed by `rank`: the root returns the gathered
list, every other rank sends its array and returns `None`.  No exception can
be raised on this path (there is no shape validation in the source). -/
def hybridGather (arrs : List (Ndarray α)) (rank root : Nat) :
    Option (List (Ndarray α)) :=
  if rank = root then some (hybridGatherRoot arrs root) else none

inductive GatherErr
  | shapeMismatch   -- e13tools.ShapeError: sizes differ in more than 1 axis
  | keyError        -- dtype_dict[obj.dtype.name] on an unsupported dtype
  | valueError      -- np.reshape onto a shape of a different total size
  deriving DecidableEq, Repr

/-- `np.cumsum`: inclusive running sums. -/
def cumsum : List Nat → List Nat
  | [] => []
  | x :: xs => x :: (cumsum xs).map (fun y => x + y)

/-- `np.split(xs, idxs)` at ascending absolute indices (`prev` is the
absolute position already consumed): `k` indices yield `k + 1` parts. -/
def npSplitFrom (xs : List γ) (prev : Nat) : List Nat → List (List γ)
  | [] => [xs]
  | i :: rest => xs.take (i - prev) :: npSplitFrom (xs.drop (i - prev)) i rest

/-- `np.max(shapes, axis=0)`: columnwise maximum. -/
def colMax : List (List Nat) → List Nat
  | [] => []
  | [r] => r
  | r :: rs => List.zipWith max r (colMax rs)

/-- `diff_size = ~np.all(np.equal(shapes, max_size), axis=0)`: per axis,
whether some rank's size differs from the columnwise maximum. -/
def diffFlags (rows : List (List Nat)) (maxs : List Nat) : List Bool :=
  (List.range maxs.length).map
    (fun j => rows.any (fun r => r.getD j 0 != maxs.getD j 0))

/-- `diff_axis = np.nonzero(diff_size)[0][0] if sum(diff_size) else 0`. -/
def diffAxis (flags : List Bool) : Nat :=
  if flags.any (fun b => b) then flags.findIdx (fun b => b) else 0

/-- Membership in `dtype_dict` (`KeyError` otherwise). -/
def dtype_supported (d : NpDtype) : Bool :=
  supported_dtypes.contains d

/-- The reshape loop `for i, shape in enumerate(shapes):
arr_list[i] = np.reshape(arr_list[i], shape)` — `np.reshape` raises unless
the part holds exactly `prod shape` elements.  The reshaped arrays take the
root's dtype (the `Gatherv` receive buffer was allocated with it). -/
def reshapeParts (d : NpDtype) : List (List γ) → List (List Nat) →
    Except GatherErr (List (Ndarray γ))
  | _, [] => .ok []
  | [], _ :: _ => .error .valueError
  | p :: ps, s :: ss =>
      if p.length = s.prod then
        (reshapeParts d ps ss).map
          (fun rest => { dtype := d, contiguous := true, shape := s, data := p } :: rest)
      else .error .valueError

/-- The root side of `BufferComm.gather`'s buffer path
(`_buffer_comm.py` lines 240-284). -/
def bufferGatherRoot [Inhabited γ] (arrs : List (Ndarray γ)) (root : Nat) :
    Except GatherErr (List (Ndarray γ)) :=
  -- `shapes = np.array(comm.gather(obj.shape, root=root))`
  let shapes := arrs.map Ndarray.shape
  -- `counts = np.product(shapes, axis=1)`
  let counts := shapes.map List.prod
  -- `disps = np.cumsum([0, *counts[:-1]])`
  let disps := cumsum (0 :: counts.dropLast)
  -- `max_size = np.max(shapes, axis=0)`
  let max_size := colMax shapes
  -- `diff_size = ~np.all(np.equal(shapes, max_size), axis=0)`
  let diff_size := diffFlags shapes max_size
  -- `if(sum(diff_size) > 1): raise ShapeError(...)`
  if diff_size.count true > 1 then .error .shapeMismatch
  else
    -- `buff_shape = max_size; buff_shape[diff_axis] = np.sum(shapes[:, diff_axis])`
    let diff_axis := diffAxis diff_size
    let buff_shape :=
      max_size.set diff_axis ((shapes.map (fun s => s.getD diff_axis 0)).sum)
    let buff_size := buff_shape.prod
    let rootDtype := ((arrs.get? root).map Ndarray.dtype).getD .float64
    -- `dtype_dict[obj.dtype.name]` raises KeyError on an unsupported dtype
    if dtype_supported rootDtype = false then .error .keyError
    else
      -- `recv_obj = np.empty(buff_size, dtype)` filled by `comm.Gatherv`:
      -- each rank's `obj.ravel()` lands at its displacement, i.e. the flat
      -- buffers concatenate in rank order; any uninitialized tail (when
      -- `buff_size` exceeds the summed counts) is modelled by `default`
      let flats := arrs.map Ndarray.data
      let recv_obj := (flats.flatten ++ List.replicate buff_size default).take buff_size
      -- `arr_list = np.split(recv_obj, disps[1:])`, then the reshape loop
      reshapeParts rootDtype (npSplitFrom recv_obj 0 (disps.drop 1)) shapes

/-- `BufferComm.gather` as observed by `rank`: the root runs the
reconciliation; a non-root rank sends (`comm.Gatherv([obj, obj.size], None)`)
and returns `None` — it performs none of the checks. -/
def bufferGather [Inhabited γ] (arrs : List (Ndarray γ)) (rank root : Nat) :
    Except GatherErr (Option (List (Ndarray γ))) :=
  if rank = root then (bufferGatherRoot arrs root).map some
  else .ok none

/-- Rank 0's array in the two-axis-mismatch scenario: shape `(2, 3)`. -/
def mixA : Ndarray Nat :=
  { dtype := .int64, contiguous := true, shape := [2, 3], data := [0, 1, 2, 3, 4, 5] }

/-- Rank 1's array in the two-axis-mismatch scenario: shape `(3, 4)` —
both axis 0 and axis 1 differ from rank 0's shape. -/
def mixB : Ndarray Nat :=
  { dtype := .int64, contiguous := true, shape := [3, 4],
    data := [0, 1, 2, 3, 4, 5, 6, 7, 8, 9, 10, 11] }

/-- C3 counterexample: gathering shapes `(2, 3)` and `(3, 4)` (two differing
axes) over 2 ranks with root 0 — `HybridComm.gather` does not fail at all (it
returns both arrays intact, having moved all the data), and with
`BufferComm.gather` the non-root rank 1 completes without any error after
sending its data; only the buffer root raises.  The claim's "fails with a
shape-mismatch error on all ranks, before any array data is transmitted" is
false on both counts. -/
theorem C3_counterexample :
    hybridGather [mixA, mixB] 0 0 = some [mixA, mixB] ∧
    bufferGather [mixA, mixB] 1 0 = Except.ok none ∧
    bufferGather [mixA, mixB] 0 0 = Except.error .shapeMismatch := by
  refine ⟨rfl, rfl, rfl⟩

/-- C3 (amended): when the gathered shapes differ in more than one axis, the
shape-mismatch error is raised by `BufferComm.gather` only on the root rank
(before the root allocates its receive buffer or takes part in the data
`Gatherv`); every non-root rank performs no check, sends its data and
completes with `None`; and `HybridComm.gather` — the exported facade's gather
— performs no shape validation at all and returns the root's gathered list. -/
theorem C3_shape_mismatch_root_only [Inhabited α] (arrs : List (Ndarray α))
    (root rank : Nat)
    (hflags : (diffFlags (arrs.map Ndarray.shape)
        (colMax (arrs.map Ndarray.shape))).count true > 1) :
    bufferGather arrs root root = Except.error .shapeMismatch ∧
    (rank ≠ root → bufferGather arrs rank root = Except.ok none) ∧
    hybridGather arrs root root = some (hybridGatherRoot arrs root) := by
  refine ⟨?_, ?_, ?_⟩
  · unfold bufferGather
    rw [if_pos rfl]
    unfold bufferGatherRoot
    simp only [if_pos hflags]
    rfl
  · intro h
    unfold bufferGather
    rw [if_neg h]
  · unfold hybridGather
    rw [if_pos rfl]

/-- C3 witness for the amended claim: shapes `(2, 3)` and `(3, 4)` differ in
two axes; the buffer root raises, the non-root rank returns `None`. -/
theorem C3_shape_mismatch_root_only_witness :
    bufferGather [mixA, mixB] 0 0 = Except.error .shapeMismatch ∧
    bufferGather [mixA, mixB] 1 0 = Except.ok none := by
  have h := C3_shape_mismatch_root_only [mixA, mixB] 0 1 (by decide)
  exact ⟨h.1, h.2.1 (by decide)⟩

theorem gatherLoop_eq_self (rootDtype : NpDtype) (root : Nat)
    (arrs : List (Ndarray α))
    (h : ∀ a ∈ arrs, a.dtype = rootDtype ∧ a.contiguous = true) :
    ∀ k, gatherLoop rootDtype root k arrs = arrs := by
  induction arrs with
  | nil => intro k; rfl
  | cons a rest ih =>
      intro k
      have ha := h a (List.mem_cons_self a rest)
      have hrest : ∀ b ∈ rest, b.dtype = rootDtype ∧ b.contiguous = true :=
        fun b hb => h b (List.mem_cons_of_mem a hb)
      unfold gatherLoop
      rw [ih hrest (k + 1), ite_self]
      cases a with
      | mk d c s dd =>
          obtain ⟨h1, h2⟩ := ha
          simp only [Ndarray.dtype] at h1
          simp only [Ndarray.contiguous] at h2
          subst h1
          subst h2
          rfl

theorem hybridGatherRoot_eq_self (arrs : List (Ndarray α)) (root : Nat)
    (hroot : root < arrs.length)
    (hdt : ∀ a ∈ arrs, ∀ b ∈ arrs, a.dtype = b.dtype)
    (hcontig : ∀ a ∈ arrs, a.contiguous = true) :
    hybridGatherRoot arrs root = arrs := by
  unfold hybridGatherRoot
  rw [List.get?_eq_get hroot]
  exact gatherLoop_eq_self _ root arrs
    (fun a ha => ⟨hdt a ha _ (List.get_mem arrs root hroot), hcontig a ha⟩) 0

theorem diffFlags_getD (rows : List (List Nat)) (maxs : List Nat) (j : Nat)
    (hj : j < maxs.length) :
    (diffFlags rows maxs).getD j false =
      rows.any (fun r => r.getD j 0 != maxs.getD j 0) := by
  unfold diffFlags
  rw [List.getD_eq_getElem?_getD, List.getElem?_map, List.getElem?_range hj]
  rfl

theorem diffFlags_length (rows : List (List Nat)) (maxs : List Nat) :
    (diffFlags rows maxs).length = maxs.length := by
  unfold diffFlags
  rw [List.length_map, List.length_range]

theorem getD_all_false_count (l : List Bool)
    (h : ∀ j, l.getD j false = false) : l.count true = 0 := by
  induction l with
  | nil => rfl
  | cons b bs ih =>
      have hb := h 0
      rw [List.getD_cons_zero] at hb
      subst hb
      rw [List.count_cons_of_ne (by decide)]
      exact ih (fun j => by
        have hj := h (j + 1)
        rwa [List.getD_cons_succ] at hj)

theorem count_le_one_of_unique (l : List Bool) (ax : Nat)
    (h : ∀ j, j ≠ ax → l.getD j false = false) : l.count true ≤ 1 := by
  induction l generalizing ax with
  | nil => simp
  | cons b bs ih =>
      cases ax with
      | zero =>
          have hbs : ∀ j, bs.getD j false = false := fun j => by
            have hj := h (j + 1) (Nat.succ_ne_zero j)
            rwa [List.getD_cons_succ] at hj
          have h0 : bs.count true = 0 := getD_all_false_count bs hbs
          cases b with
          | false => rw [List.count_cons_of_ne (by decide), h0]; omega
          | true => rw [List.count_cons_self, h0]
      | succ k =>
          have hb := h 0 (by omega)
          rw [List.getD_cons_zero] at hb
          subst hb
          rw [List.count_cons_of_ne (by decide)]
          exact ih k (fun j hj => by
            have hjj := h (j + 1) (by omega)
            rwa [List.getD_cons_succ] at hjj)

theorem findIdx_unique (l : List Bool) (ax : Nat)
    (hax : l.getD ax false = true)
    (h : ∀ j, j ≠ ax → l.getD j false = false) :
    l.findIdx (fun b => b) = ax := by
  induction l generalizing ax with
  | nil => simp [List.getD] at hax
  | cons b bs ih =>
      cases ax with
      | zero =>
          rw [List.getD_cons_zero] at hax
          subst hax
          rw [List.findIdx_cons]
          rfl
      | succ k =>
          have hb := h 0 (by omega)
          rw [List.getD_cons_zero] at hb
          subst hb
          rw [List.findIdx_cons]
          rw [List.getD_cons_succ] at hax
          have := ih k hax (fun j hj => by
            have hjj := h (j + 1) (by omega)
            rwa [List.getD_cons_succ] at hjj)
          simp [this]

theorem diffAxis_unique (l : List Bool) (ax : Nat)
    (hax : l.getD ax false = true)
    (h : ∀ j, j ≠ ax → l.getD j false = false) :
    diffAxis l = ax := by
  have hlt : ax < l.length := by
    by_contra hge
    rw [List.getD_eq_default l false (by omega)] at hax
    exact Bool.false_ne_true hax
  have hany : l.any (fun b => b) = true := by
    rw [List.any_eq_true]
    refine ⟨true, ?_, rfl⟩
    rw [List.getD_eq_getElem l false hlt] at hax
    rw [← hax]
    exact List.getElem_mem hlt
  unfold diffAxis
  rw [if_pos hany]
  exact findIdx_unique l ax hax h

theorem diffAxis_of_all_false (l : List Bool)
    (h : ∀ j, l.getD j false = false) : diffAxis l = 0 := by
  have hany : l.any (fun b => b) = false := by
    rw [List.any_eq_false]
    intro x hx
    rw [List.mem_iff_getElem] at hx
    obtain ⟨n, hn, hxn⟩ := hx
    have := h n
    rw [List.getD_eq_getElem l false hn, hxn] at this
    simp [this]
  unfold diffAxis
  rw [if_neg (by simp [hany])]

theorem colMax_length (rows : List (List Nat)) (d : Nat)
    (hne : rows ≠ []) (hd : ∀ r ∈ rows, r.length = d) :
    (colMax rows).length = d := by
  induction rows with
  | nil => cases hne rfl
  | cons r rs ih =>
      cases rs with
      | nil =>
          unfold colMax
          exact hd r (List.mem_cons_self r [])
      | cons s ss =>
          unfold colMax
          rw [List.length_zipWith,
            ih (by simp) (fun b hb => hd b (List.mem_cons_of_mem r hb)),
            hd r (List.mem_cons_self r _), Nat.min_self]

theorem colMax_getD_of_const (rows : List (List Nat)) (d j v : Nat)
    (hne : rows ≠ []) (hd : ∀ r ∈ rows, r.length = d) (hjd : j < d)
    (hcol : ∀ r ∈ rows, r.getD j 0 = v) :
    (colMax rows).getD j 0 = v := by
  induction rows with
  | nil => cases hne rfl
  | cons r rs ih =>
      cases rs with
      | nil =>
          unfold colMax
          exact hcol r (List.mem_cons_self r [])
      | cons s ss =>
          unfold colMax
          have hlen2 : (colMax (s :: ss)).length = d :=
            colMax_length (s :: ss) d (by simp) (fun b hb => hd b (List.mem_cons_of_mem r hb))
          have hr : r.length = d := hd r (List.mem_cons_self r _)
          have hzlen : j < (List.zipWith max r (colMax (s :: ss))).length := by
            rw [List.length_zipWith, hlen2, hr, Nat.min_self]
            exact hjd
          rw [List.getD_eq_getElem _ 0 hzlen, List.getElem_zipWith,
            ← List.getD_eq_getElem r 0 (by omega),
            ← List.getD_eq_getElem (colMax (s :: ss)) 0 (by omega),
            hcol r (List.mem_cons_self r _),
            ih (by simp) (fun b hb => hd b (List.mem_cons_of_mem r hb))
              (fun b hb => hcol b (List.mem_cons_of_mem r hb)),
            Nat.max_self]

theorem rows_eq_max_of_flag_false (rows : List (List Nat)) (maxs : List Nat)
    (j : Nat) (hj : j < maxs.length)
    (hflag : (diffFlags rows maxs).getD j false = false) :
    ∀ r ∈ rows, r.getD j 0 = maxs.getD j 0 := by
  rw [diffFlags_getD rows maxs j hj, List.any_eq_false] at hflag
  intro r hr
  have hf := hflag r hr
  simpa using hf

theorem diffFlags_false_of_const (rows : List (List Nat)) (d j : Nat)
    (hne : rows ≠ []) (hd : ∀ r ∈ rows, r.length = d) (hjd : j < d)
    (hconst : ∀ r ∈ rows, ∀ s ∈ rows, r.getD j 0 = s.getD j 0) :
    (diffFlags rows (colMax rows)).getD j false = false := by
  obtain ⟨r0, rows', rfl⟩ : ∃ r0 rows', rows = r0 :: rows' := by
    cases rows with
    | nil => cases hne rfl
    | cons x xs => exact ⟨x, xs, rfl⟩
  have hcol : ∀ r ∈ r0 :: rows', r.getD j 0 = r0.getD j 0 :=
    fun r hr => hconst r hr r0 (List.mem_cons_self r0 rows')
  have hmaxlen : (colMax (r0 :: rows')).length = d := colMax_length _ d hne hd
  have hmax : (colMax (r0 :: rows')).getD j 0 = r0.getD j 0 :=
    colMax_getD_of_const _ d j _ hne hd hjd hcol
  rw [diffFlags_getD _ _ j (by omega), List.any_eq_false]
  intro r hr
  have heq : r.getD j 0 = (colMax (r0 :: rows')).getD j 0 := by
    rw [hcol r hr, hmax]
  rw [heq]
  simp

theorem row_eq_set (row maxs : List Nat) (dAx d : Nat)
    (hrow : row.length = d) (hmaxs : maxs.length = d) (hAx : dAx < d)
    (hoff : ∀ j, j < d → j ≠ dAx → row.getD j 0 = maxs.getD j 0) :
    row = maxs.set dAx (row.getD dAx 0) := by
  apply List.ext_getElem
  · rw [List.length_set]; omega
  · intro j hj1 hj2
    by_cases hjx : j = dAx
    · subst hjx
      rw [List.getElem_set_self]
      rw [List.getD_eq_getElem row 0 (by omega)]
    · rw [List.getElem_set_ne (fun heq => hjx heq.symm)]
      have hjj := hoff j (by omega) hjx
      rw [List.getD_eq_getElem row 0 (by omega),
        List.getD_eq_getElem maxs 0 (by omega)] at hjj
      exact hjj

theorem sum_mul_factor (rows : List (List Nat)) (A B : Nat) (f : List Nat → Nat) :
    (rows.map (fun r => A * f r * B)).sum = A * (rows.map f).sum * B := by
  induction rows with
  | nil => simp
  | cons r rs ih =>
      simp only [List.map_cons, List.sum_cons, ih]
      ring

theorem buffSize_eq_counts_sum (rows : List (List Nat)) (d dAx : Nat)
    (hne : rows ≠ []) (hd : ∀ r ∈ rows, r.length = d) (hAx : dAx < d)
    (hoffAll : ∀ j, j < d → j ≠ dAx →
      (∀ r ∈ rows, r.getD j 0 = (colMax rows).getD j 0)) :
    ((colMax rows).set dAx ((rows.map (fun s => s.getD dAx 0)).sum)).prod
      = (rows.map List.prod).sum := by
  have hmlen : (colMax rows).length = d := colMax_length rows d hne hd
  have hrow : ∀ r ∈ rows, r = (colMax rows).set dAx (r.getD dAx 0) := by
    intro r hr
    exact row_eq_set r (colMax rows) dAx d (hd r hr) hmlen hAx
      (fun j hj hjx => hoffAll j hj hjx r hr)
  have hprod : ∀ r ∈ rows, r.prod =
      ((colMax rows).take dAx).prod * r.getD dAx 0 *
        ((colMax rows).drop (dAx + 1)).prod := by
    intro r hr
    calc r.prod = ((colMax rows).set dAx (r.getD dAx 0)).prod := by
          rw [← hrow r hr]
      _ = _ := by
          rw [List.prod_set, if_pos (by omega)]
  rw [List.prod_set, if_pos (by omega : dAx < (colMax rows).length),
    List.map_congr_left hprod, sum_mul_factor]

theorem cumsum_zero_cons (cs : List Nat) : cumsum (0 :: cs) = 0 :: cumsum cs := by
  have h : cumsum (0 :: cs) = 0 :: (cumsum cs).map (fun y => 0 + y) := rfl
  rw [h, List.map_congr_left (fun a _ => Nat.zero_add a), List.map_id']

theorem npSplitFrom_flatten (flats : List (List γ)) :
    ∀ prev, flats ≠ [] →
      npSplitFrom flats.flatten prev
        ((cumsum ((flats.map List.length).dropLast)).map (fun x => x + prev)) =
      flats := by
  induction flats with
  | nil => intro prev h; cases h rfl
  | cons f rest ih =>
      intro prev _
      cases rest with
      | nil => simp [npSplitFrom]
      | cons g gs =>
          have hdrop : ((f :: g :: gs).map List.length).dropLast
              = f.length :: (((g :: gs).map List.length).dropLast) := by
            rw [List.map_cons, List.map_cons, List.dropLast_cons₂, ← List.map_cons]
          rw [hdrop]
          unfold cumsum
          rw [List.map_cons, List.map_map]
          unfold npSplitFrom
          rw [List.flatten_cons, Nat.add_sub_cancel, List.take_left' rfl,
            List.drop_left' rfl]
          congr 1
          have hfun : ((fun x => x + prev) ∘ (fun y => f.length + y)) =
              (fun x => x + (f.length + prev)) := by
            funext x
            simp only [Function.comp]
            omega
          rw [hfun]
          exact ih (f.length + prev) (by simp)

theorem reshapeParts_ok (d : NpDtype) (arrs : List (Ndarray γ))
    (hwf : ∀ a ∈ arrs, a.wf)
    (hdt : ∀ a ∈ arrs, a.dtype = d)
    (hcg : ∀ a ∈ arrs, a.contiguous = true) :
    reshapeParts d (arrs.map Ndarray.data) (arrs.map Ndarray.shape) =
      Except.ok arrs := by
  induction arrs with
  | nil => rfl
  | cons a rest ih =>
      rw [List.map_cons, List.map_cons]
      unfold reshapeParts
      rw [if_pos (show a.data.length = a.shape.prod from hwf a (List.mem_cons_self a rest))]
      rw [ih (fun b hb => hwf b (List.mem_cons_of_mem a hb))
        (fun b hb => hdt b (List.mem_cons_of_mem a hb))
        (fun b hb => hcg b (List.mem_cons_of_mem a hb))]
      have ha1 := hdt a (List.mem_cons_self a rest)
      have ha2 := hcg a (List.mem_cons_self a rest)
      cases a with
      | mk ad ac as add =>
          simp only [Ndarray.dtype] at ha1
          simp only [Ndarray.contiguous] at ha2
          subst ha1
          subst ha2
          rfl

theorem bufferGatherRoot_ok [Inhabited α] (arrs : List (Ndarray α))
    (root d ax : Nat)
    (hne : arrs ≠ [])
    (hroot : root < arrs.length)
    (hwf : ∀ a ∈ arrs, a.wf)
    (hdt : ∀ a ∈ arrs, ∀ b ∈ arrs, a.dtype = b.dtype)
    (hcontig : ∀ a ∈ arrs, a.contiguous = true)
    (hsupp : ∀ a ∈ arrs, dtype_supported a.dtype = true)
    (hdim : ∀ a ∈ arrs, a.shape.length = d)
    (hd : 0 < d)
    (hax : ∀ a ∈ arrs, ∀ b ∈ arrs, ∀ j, j ≠ ax →
      a.shape.getD j 0 = b.shape.getD j 0) :
    bufferGatherRoot arrs root = Except.ok arrs := by
  have hne_sh : arrs.map Ndarray.shape ≠ [] := by
    intro hcon
    exact hne (List.map_eq_nil_iff.mp hcon)
  have hd_sh : ∀ r ∈ arrs.map Ndarray.shape, r.length = d := by
    intro r hr
    obtain ⟨a, ha, rfl⟩ := List.mem_map.mp hr
    exact hdim a ha
  have hmaxlen : (colMax (arrs.map Ndarray.shape)).length = d :=
    colMax_length _ d hne_sh hd_sh
  have hflen : (diffFlags (arrs.map Ndarray.shape)
      (colMax (arrs.map Ndarray.shape))).length = d := by
    rw [diffFlags_length, hmaxlen]
  -- only axis `ax` can carry a difference flag
  have huniq : ∀ j, j ≠ ax →
      (diffFlags (arrs.map Ndarray.shape)
        (colMax (arrs.map Ndarray.shape))).getD j false = false := by
    intro j hj
    by_cases hjd : j < d
    · apply diffFlags_false_of_const _ d j hne_sh hd_sh hjd
      intro r hr s hs
      obtain ⟨a, ha, rfl⟩ := List.mem_map.mp hr
      obtain ⟨b, hb, rfl⟩ := List.mem_map.mp hs
      exact hax a ha b hb j hj
    · exact List.getD_eq_default _ false (by omega)
  have hcount : (diffFlags (arrs.map Ndarray.shape)
      (colMax (arrs.map Ndarray.shape))).count true ≤ 1 :=
    count_le_one_of_unique _ ax huniq
  -- the chosen varying axis is in range, and all rows match the columnwise
  -- maximum away from it
  obtain ⟨hAxlt, hoffAll⟩ :
      diffAxis (diffFlags (arrs.map Ndarray.shape)
        (colMax (arrs.map Ndarray.shape))) < d ∧
      (∀ j, j < d →
        j ≠ diffAxis (diffFlags (arrs.map Ndarray.shape)
          (colMax (arrs.map Ndarray.shape))) →
        ∀ r ∈ arrs.map Ndarray.shape,
          r.getD j 0 = (colMax (arrs.map Ndarray.shape)).getD j 0) := by
    by_cases hfl : (diffFlags (arrs.map Ndarray.shape)
        (colMax (arrs.map Ndarray.shape))).getD ax false = true
    · have hdax := diffAxis_unique _ ax hfl huniq
      have haxd : ax < d := by
        by_contra hge
        rw [List.getD_eq_default _ false (by omega)] at hfl
        exact Bool.false_ne_true hfl
      refine ⟨by omega, ?_⟩
      intro j hj hjx
      exact rows_eq_max_of_flag_false _ _ j (by omega)
        (huniq j (by rw [← hdax]; exact hjx))
    · have hallf : ∀ j, (diffFlags (arrs.map Ndarray.shape)
          (colMax (arrs.map Ndarray.shape))).getD j false = false := by
        intro j
        by_cases hje : j = ax
        · subst hje
          exact Bool.eq_false_iff.mpr hfl
        · exact huniq j hje
      rw [diffAxis_of_all_false _ hallf]
      refine ⟨hd, ?_⟩
      intro j hj _
      exact rows_eq_max_of_flag_false _ _ j (by omega) (hallf j)
  -- counts coincide with the flat-buffer lengths
  have hcounts : (arrs.map Ndarray.shape).map List.prod =
      (arrs.map Ndarray.data).map List.length := by
    rw [List.map_map, List.map_map]
    apply List.map_congr_left
    intro a ha
    exact (hwf a ha).symm
  -- buffer size equals the total number of gathered elements
  have hbsize : ((colMax (arrs.map Ndarray.shape)).set
      (diffAxis (diffFlags (arrs.map Ndarray.shape)
        (colMax (arrs.map Ndarray.shape))))
      (((arrs.map Ndarray.shape).map (fun s => s.getD
        (diffAxis (diffFlags (arrs.map Ndarray.shape)
          (colMax (arrs.map Ndarray.shape)))) 0)).sum)).prod =
      ((arrs.map Ndarray.data).flatten).length := by
    rw [buffSize_eq_counts_sum _ d _ hne_sh hd_sh hAxlt hoffAll, hcounts,
      List.length_flatten]
  have hroot_dtype : ∀ a ∈ arrs, a.dtype = (arrs.get ⟨root, hroot⟩).dtype :=
    fun a ha => hdt a ha _ (List.get_mem arrs root hroot)
  have hsupp_root : dtype_supported (arrs.get ⟨root, hroot⟩).dtype = true :=
    hsupp _ (List.get_mem arrs root hroot)
  unfold bufferGatherRoot
  simp only []
  rw [if_neg (by omega : ¬ (diffFlags (arrs.map Ndarray.shape)
    (colMax (arrs.map Ndarray.shape))).count true > 1)]
  rw [List.get?_eq_get hroot]
  rw [if_neg (by simpa using hsupp_root :
    ¬ dtype_supported (((some (arrs.get ⟨root, hroot⟩)).map
      Ndarray.dtype).getD .float64) = false)]
  rw [List.take_left' hbsize.symm]
  rw [cumsum_zero_cons, List.drop_one, List.tail_cons]
  rw [show ((arrs.map Ndarray.shape).map List.prod).dropLast =
    ((arrs.map Ndarray.data).map List.length).dropLast from by rw [hcounts]]
  rw [show cumsum (((arrs.map Ndarray.data).map List.length).dropLast) =
    (cumsum (((arrs.map Ndarray.data).map List.length).dropLast)).map
      (fun x => x + 0) from by
    rw [List.map_congr_left (fun a _ => Nat.add_zero a), List.map_id']]
  rw [npSplitFrom_flatten (arrs.map Ndarray.data) 0
    (by intro hcon; exact hne (List.map_eq_nil_iff.mp hcon))]
  exact reshapeParts_ok _ arrs hwf hroot_dtype hcontig

/-- C4: for a group whose per-rank payloads are ndarrays of a common
supported dtype (contiguous, well-formed, equal number of dimensions ≥ 1)
whose shapes agree outside one axis `ax` (shapes identical is the `ax`-less
special case), gather at the root returns the ordered per-rank list itself —
element `i` is rank `i`'s array with its original shape and values — and
every non-root rank receives `None`; this holds for `HybridComm.gather` (via
per-rank `Recv`) and for `BufferComm.gather` (via the flat `Gatherv`,
split at the displacements, and reshape). -/
theorem C4_gather_returns_ordered_arrays [Inhabited α]
    (arrs : List (Ndarray α)) (root rank d ax : Nat)
    (hne : arrs ≠ [])
    (hroot : root < arrs.length)
    (hwf : ∀ a ∈ arrs, a.wf)
    (hdt : ∀ a ∈ arrs, ∀ b ∈ arrs, a.dtype = b.dtype)
    (hcontig : ∀ a ∈ arrs, a.contiguous = true)
    (hsupp : ∀ a ∈ arrs, dtype_supported a.dtype = true)
    (hdim : ∀ a ∈ arrs, a.shape.length = d)
    (hd : 0 < d)
    (hax : ∀ a ∈ arrs, ∀ b ∈ arrs, ∀ j, j ≠ ax →
      a.shape.getD j 0 = b.shape.getD j 0) :
    hybridGather arrs root root = some arrs ∧
    (rank ≠ root → hybridGather arrs rank root = none) ∧
    bufferGather arrs root root = Except.ok (some arrs) ∧
    (rank ≠ root → bufferGather arrs rank root = Except.ok none) := by
  refine ⟨?_, ?_, ?_, ?_⟩
  · unfold hybridGather
    rw [if_pos rfl, hybridGatherRoot_eq_self arrs root hroot hdt hcontig]
  · intro h
    unfold hybridGather
    rw [if_neg h]
  · unfold bufferGather
    rw [if_pos rfl, bufferGatherRoot_ok arrs root d ax hne hroot hwf hdt
      hcontig hsupp hdim hd hax]
    rfl
  · intro h
    unfold bufferGather
    rw [if_neg h]

/-- Rank 0's array in the varying-axis-0 gather scenario: shape `(2, 3)`. -/
def gatherA : Ndarray Nat :=
  { dtype := .int64, contiguous := true, shape := [2, 3], data := [0, 1, 2, 3, 4, 5] }

/-- Rank 1's array in the varying-axis-0 gather scenario: shape `(4, 3)`. -/
def gatherB : Ndarray Nat :=
  { dtype := .int64, contiguous := true, shape := [4, 3],
    data := [6, 7, 8, 9, 10, 11, 12, 13, 14, 15, 16, 17] }

/-- C4 witness: two `int64` arrays of shapes `(2, 3)` and `(4, 3)` (only axis
0 differs); the root obtains `[gatherA, gatherB]` in rank order on both
gather implementations, and the non-root rank obtains `None`. -/
theorem C4_gather_witness :
    hybridGather [gatherA, gatherB] 0 0 = some [gatherA, gatherB] ∧
    hybridGather [gatherA, gatherB] 1 0 = none ∧
    bufferGather [gatherA, gatherB] 0 0 = Except.ok (some [gatherA, gatherB]) ∧
    bufferGather [gatherA, gatherB] 1 0 = Except.ok none := by
  have hmem : ∀ a ∈ [gatherA, gatherB], a = gatherA ∨ a = gatherB := by
    intro a ha
    rcases List.mem_cons.mp ha with rfl | ha2
    · exact Or.inl rfl
    · rcases List.mem_cons.mp ha2 with rfl | h0
      · exact Or.inr rfl
      · exact absurd h0 (List.not_mem_nil a)
  have hshapes : ∀ j : Nat, j ≠ 0 →
      ([2, 3] : List Nat).getD j 0 = ([4, 3] : List Nat).getD j 0 := by
    intro j hj
    cases j with
    | zero => exact absurd rfl hj
    | succ k => rfl
  have h := C4_gather_returns_ordered_arrays [gatherA, gatherB] 0 1 2 0
    (by decide)
    (by decide)
    (by intro a ha; rcases hmem a ha with rfl | rfl <;> rfl)
    (by intro a ha b hb
        rcases hmem a ha with rfl | rfl <;> rcases hmem b hb with rfl | rfl <;> rfl)
    (by intro a ha; rcases hmem a ha with rfl | rfl <;> rfl)
    (by intro a ha; rcases hmem a ha with rfl | rfl <;> rfl)
    (by intro a ha; rcases hmem a ha with rfl | rfl <;> rfl)
    (by decide)
    (by intro a ha b hb j hj
        rcases hmem a ha with rfl | rfl <;> rcases hmem b hb with rfl | rfl
        · rfl
        · exact hshapes j hj
        · exact (hshapes j hj).symm
        · rfl)
  exact ⟨h.1, h.2.1 (by decide), h.2.2.1, h.2.2.2 (by decide)⟩

end Mpi4pyd
